import Mathlib

/-!
Verification of the in-process CloudEvents broker of `reverted/broker`
(`src/pubsub/forwarder.go`: `Broker.Subscribe`, `Broker.Publish`,
`Broker.SubscribeFunc`, `Broker.Shutdown`; `src/ceforwarder.go`:
`CloudEventForwarder`).

The Go broker keeps a registry `subscribers : map[string][]chan Event` of
type-keyed delivery channels plus a slice `allSubscribers` of wildcard
channels, a `sync.WaitGroup` counting in-flight delivery goroutines, and an
atomic `shuttingDown` flag.  We embed the broker state shallowly: channels
become `Queue` records (buffered contents, capacity, closed flag) stored in
an association list keyed by an allocation counter, the wait-group counter
becomes the length of a list of spawned-but-incomplete delivery tasks, and
faults that would be Go runtime panics (`close` of a closed channel, send on
a closed channel) are recorded as flags.

Two points of fidelity deserve emphasis:

* `go.mod` declares `go 1.20`, so in `Publish` the statement
  `for _, subs := range ... { go func() { subs <- event }() }` captures the
  single per-loop variable `subs` by reference.  A delivery goroutine reads
  the variable when it runs, observing the element written by its own or any
  later iteration.  The embedding therefore parameterises the spawn loop by
  a read schedule `readIdx : Nat -> Nat` mapping each iteration index to the
  index whose value the goroutine observes; realisable schedules satisfy
  `i <= readIdx i < length`.  The schedule `readAtSpawn` (the identity)
  models per-iteration capture: each goroutine reading the variable before
  the loop advances, which is also the only realisable schedule whenever the
  target list has at most one element.

* checks of the `shuttingDown` flag in `Subscribe` and `Publish` happen
  before the registry lock is taken, and delivery goroutines send without
  any lock.  The fine-grained model `MStep`/`runTrace` therefore splits each
  call into its flag check and its lock-protected body: each lock-protected
  region is a single atomic step (sound, because the mutex serialises those
  regions), while flag checks and channel sends interleave freely.
-/

/-- CloudEvents event as the broker sees it: an opaque record routed purely
on its type string (`event.Type()` in the source). -/
structure Event where
  id : String
  etype : String
  source : String
  data : String
deriving DecidableEq

/-- Identity of one subscriber channel.  Fresh identities are handed out by
the allocation counter `Broker.nextId`. -/
abbrev QueueId := Nat

/-- State of one subscriber channel: buffered events in FIFO order, the
buffer capacity (`make(chan cloudevents.Event, 10)` for registered
subscriptions, `make(chan cloudevents.Event)` for the pre-closed channel
returned after shutdown), and whether the channel has been closed. -/
structure Queue where
  buf : List Event
  cap : Nat
  closed : Bool
deriving DecidableEq

/-- Lookup in the type-keyed registry; a missing key yields the empty list,
as a Go map read of a missing key yields a nil slice. -/
def lookupSubs : List (String × List QueueId) → String → List QueueId
  | [], _ => []
  | (k, qs) :: rest, t => if k = t then qs else lookupSubs rest t

/-- `eb.subscribers[eventType] = append(eb.subscribers[eventType], ch)`:
append a channel to the slice registered under a key, creating the entry if
absent. -/
def addTyped : List (String × List QueueId) → String → QueueId → List (String × List QueueId)
  | [], t, q => [(t, [q])]
  | (k, qs) :: rest, t, q =>
      if k = t then (k, qs ++ [q]) :: rest else (k, qs) :: addTyped rest t q

/-- Read a channel's state from the store. -/
def getQueue : List (QueueId × Queue) → QueueId → Option Queue
  | [], _ => none
  | (k, qu) :: rest, q => if k = q then some qu else getQueue rest q

/-- Replace a channel's state in the store (first binding wins, matching
`getQueue`). -/
def setQueue : List (QueueId × Queue) → QueueId → Queue → List (QueueId × Queue)
  | [], _, _ => []
  | (k, qu) :: rest, q, v =>
      if k = q then (k, v) :: rest else (k, qu) :: setQueue rest q v

/-- All channel identities registered in the type-keyed registry, in
registry order (used by `Shutdown` to close every typed subscription). -/
def typedQueueIds : List (String × List QueueId) → List QueueId
  | [] => []
  | (_, qs) :: rest => qs ++ typedQueueIds rest

/-- Events carried by the delivery tasks of `tasks` that target queue `q`,
in task order. -/
def deliveredTo : List (QueueId × Event) → QueueId → List Event
  | [], _ => []
  | (k, e) :: rest, q => if k = q then e :: deliveredTo rest q else deliveredTo rest q

/-- Broker state (`Broker` in `src/pubsub/forwarder.go`).  `pending` lists
the delivery goroutines that have been spawned (wait-group incremented) but
have not yet completed their channel send; the wait-group counter is its
length.  `doubleClose` and `sendOnClosed` record the two Go runtime panics
the broker can commit. -/
structure Broker where
  subscribers : List (String × List QueueId)
  allSubscribers : List QueueId
  queues : List (QueueId × Queue)
  nextId : QueueId
  pending : List (QueueId × Event)
  shuttingDown : Bool
  doubleClose : Bool
  sendOnClosed : Bool
deriving DecidableEq

/-- `NewBroker()`: empty registry, flag unset. -/
def NewBroker : Broker :=
  { subscribers := [], allSubscribers := [], queues := [], nextId := 0,
    pending := [], shuttingDown := false, doubleClose := false, sendOnClosed := false }

/-- The early-return path of `Subscribe` taken when `shuttingDown` reads
true: make an unbuffered channel, close it, return it without registering.
The fresh binding is consed onto the store so that it shadows any stale
binding of the same identity. -/
def Broker.subscribeClosed (s : Broker) : Broker × QueueId :=
  let qid := s.nextId
  ({ s with queues := (qid, { buf := [], cap := 0, closed := true }) :: s.queues,
            nextId := qid + 1 }, qid)

/-- The lock-protected body of `Subscribe`: allocate a buffered channel of
capacity 10 and register it, under the wildcard list when the requested type
is `"*"` and under the type key otherwise. -/
def Broker.subscribeBody (s : Broker) (eventType : String) : Broker × QueueId :=
  let qid := s.nextId
  let s1 : Broker :=
    { s with queues := (qid, { buf := [], cap := 10, closed := false }) :: s.queues,
             nextId := qid + 1 }
  if eventType = "*" then
    ({ s1 with allSubscribers := s1.allSubscribers ++ [qid] }, qid)
  else
    ({ s1 with subscribers := addTyped s1.subscribers eventType qid }, qid)

/-- `Broker.Subscribe` as an atomic call: flag check, then either the
pre-closed channel path or the registration body. -/
def Broker.Subscribe (s : Broker) (eventType : String) : Broker × QueueId :=
  if s.shuttingDown then Broker.subscribeClosed s else Broker.subscribeBody s eventType

/-- One spawn loop of `Publish` over a target list.  The loop spawns one
delivery goroutine per iteration; the goroutine for iteration `i` reads the
shared loop variable when it runs, observing the element of iteration
`readIdx i` (realisable schedules satisfy `i <= readIdx i < length`, since
the variable holds the element of the spawning or a later iteration).
`all` is the full target slice, `rest` counts the remaining iterations. -/
def spawnFrom (all : List QueueId) (e : Event) (readIdx : Nat → Nat) :
    List QueueId → Nat → List (QueueId × Event)
  | [], _ => []
  | _ :: rest, i => (all.getD (readIdx i) 0, e) :: spawnFrom all e readIdx rest (i + 1)

/-- Delivery tasks spawned by one `for _, subs := range targets` loop of
`Publish` under read schedule `readIdx`. -/
def spawnTasks (targets : List QueueId) (readIdx : Nat → Nat) (e : Event) :
    List (QueueId × Event) :=
  spawnFrom targets e readIdx targets 0

/-- The per-iteration-capture schedule: every delivery goroutine reads the
loop variable before the loop advances.  This is the only realisable
schedule when the target list has at most one element. -/
def readAtSpawn : Nat → Nat := fun i => i

/-- Boolean realisability of a read schedule for a loop of `n` iterations:
each goroutine observes the element of its own or a later iteration. -/
def schedOK (n : Nat) (readIdx : Nat → Nat) : Bool :=
  (List.range n).all fun i => decide (i ≤ readIdx i) && decide (readIdx i < n)

/-- The lock-protected body of `Publish`: spawn one delivery task per
channel registered under the event's exact type, then one per wildcard
channel.  `readT` and `readW` are the read schedules of the two loops. -/
def Broker.publishBody (s : Broker) (event : Event) (readT readW : Nat → Nat) : Broker :=
  let typed := lookupSubs s.subscribers event.etype
  { s with pending := s.pending ++ spawnTasks typed readT event
                        ++ spawnTasks s.allSubscribers readW event }

/-- `Broker.Publish` as an atomic call: if the flag reads true the call is a
silent no-op, otherwise the spawn body runs. -/
def Broker.Publish (s : Broker) (event : Event) (readT readW : Nat → Nat) : Broker :=
  if s.shuttingDown then s else Broker.publishBody s event readT readW

/-- Completion of the pending delivery task at position `i`: the goroutine
performs `subs <- event`.  A send on a closed channel is the Go runtime
panic recorded in `sendOnClosed`; a send on an open channel with buffer
space appends the event; a send on a full open channel blocks (the task
stays pending). -/
def Broker.deliver (s : Broker) (i : Nat) : Broker :=
  match s.pending[i]? with
  | none => s
  | some (qid, e) =>
    match getQueue s.queues qid with
    | none => { s with pending := s.pending.eraseIdx i }
    | some qu =>
      if qu.closed then
        { s with sendOnClosed := true, pending := s.pending.eraseIdx i }
      else if qu.buf.length < qu.cap then
        { s with queues := setQueue s.queues qid { qu with buf := qu.buf ++ [e] },
                 pending := s.pending.eraseIdx i }
      else s

/-- Close every channel in `qids`, in order.  Closing an already-closed
channel is the Go runtime panic recorded in `doubleClose`. -/
def closeList (s : Broker) (qids : List QueueId) : Broker :=
  qids.foldl
    (fun st qid =>
      match getQueue st.queues qid with
      | none => st
      | some qu =>
        if qu.closed then { st with doubleClose := true }
        else { st with queues := setQueue st.queues qid { qu with closed := true } })
    s

/-- The lock-protected closing phase of `Shutdown`: close every typed
subscription, then every wildcard subscription. -/
def Broker.closeAllQueues (s : Broker) : Broker :=
  closeList (closeList s (typedQueueIds s.subscribers)) s.allSubscribers

/-- `Broker.Shutdown` as an atomic call: store the flag, wait for the
pending-delivery counter (trivial when no tasks are pending, which is the
situation every sequential claim evaluates it in), close all registered
queues. -/
def Broker.Shutdown (s : Broker) : Broker :=
  Broker.closeAllQueues { s with shuttingDown := true }

/-- `Broker.SubscribeFunc` registers exactly as `Subscribe` does (its first
line is `ch := eb.Subscribe(eventType)`); the consumption loop it spawns is
modelled by `consumeLoop` applied to the callback `f` and the queue's final
state. -/
def Broker.SubscribeFunc {α : Type} (s : Broker) (eventType : String) (f : Event → α) :
    Broker × QueueId :=
  Broker.Subscribe s eventType

/-- The callback invocations of `for event := range ch { f(event) }` over a
delivered event list, in order. -/
def consumeList {α : Type} (f : Event → α) : List Event → List α
  | [] => []
  | e :: rest => f e :: consumeList f rest

/-- The consumer loop of `SubscribeFunc` observed against a queue's final
state: once the channel is closed the loop drains the buffered events,
invoking the callback once per event in order, and exits (`some` run); while
the channel is open the loop has not exited (`none`). -/
def consumeLoop {α : Type} (f : Event → α) (q : Queue) : Option (List α) :=
  if q.closed then some (consumeList f q.buf) else none

/-- Micro-steps of the fine-grained interleaving model.  `subBody` and
`pubBody` are the lock-protected bodies of calls whose `shuttingDown` check
already returned false (the check is issued before the lock is taken, so the
body may run arbitrarily later); `subClosed` is the pre-closed-channel path
of a call whose check returned true; `deliverStep` is one delivery
goroutine's channel send; `sdFlag` and `sdClose` are the flag store and the
post-wait closing phase of `Shutdown`. -/
inductive MStep where
  | subBody (t : String)
  | subClosed
  | pubBody (e : Event) (readT readW : Nat → Nat)
  | deliverStep (i : Nat)
  | sdFlag
  | sdClose

/-- Enabledness of a micro-step: a delivery send proceeds when its task
exists and its channel is closed (panicking) or has buffer space; the
closing phase of `Shutdown` runs only after the flag is stored and
`wg.Wait()` has observed a zero counter. -/
def stepEnabled (s : Broker) : MStep → Bool
  | .subBody _ => true
  | .subClosed => s.shuttingDown
  | .pubBody _ _ _ => true
  | .deliverStep i =>
    match s.pending[i]? with
    | none => false
    | some (qid, _) =>
      match getQueue s.queues qid with
      | none => false
      | some qu => qu.closed || decide (qu.buf.length < qu.cap)
  | .sdFlag => true
  | .sdClose => s.shuttingDown && s.pending.isEmpty

/-- Effect of a micro-step on the broker state. -/
def microStep (s : Broker) : MStep → Broker
  | .subBody t => (Broker.subscribeBody s t).1
  | .subClosed => (Broker.subscribeClosed s).1
  | .pubBody e readT readW => Broker.publishBody s e readT readW
  | .deliverStep i => Broker.deliver s i
  | .sdFlag => { s with shuttingDown := true }
  | .sdClose => Broker.closeAllQueues s

/-- Run a list of micro-steps. -/
def runTrace (s : Broker) : List MStep → Broker
  | [] => s
  | a :: rest => runTrace (microStep s a) rest

/-- A trace is valid when every step is enabled in the state it runs from. -/
def ValidTrace (s : Broker) : List MStep → Bool
  | [] => true
  | a :: rest => stepEnabled s a && ValidTrace (microStep s a) rest

/-- Complete the oldest pending delivery task `n` times. -/
def flushN : Nat → Broker → Broker
  | 0, s => s
  | n + 1, s => flushN n (Broker.deliver s 0)

/-- Complete every pending delivery task, oldest first. -/
def flushAll (s : Broker) : Broker :=
  flushN s.pending.length s

/-- One `Publish` call followed by the completion of every delivery task it
spawned, under per-iteration capture. -/
def pubFlush (s : Broker) (e : Event) : Broker :=
  flushAll (Broker.Publish s e readAtSpawn readAtSpawn)

/-- A sequence of non-overlapping `Publish` calls, each one's delivery tasks
completing before the next call begins. -/
def pubSeq (s : Broker) (es : List Event) : Broker :=
  es.foldl pubFlush s

/-- Go `context.Context` as far as `CloudEventForwarder` uses it: the value
`context.Background()`. -/
inductive Ctx where
  | background
deriving DecidableEq

/-- `CloudEventForwarder` (`src/ceforwarder.go`): wraps a sender into an
event handler that calls the sender with a background context and the event.
-/
def CloudEventForwarder {α : Type} (send : Ctx → Event → α) : Event → α :=
  fun e => send Ctx.background e

/-- C2 (code bug): `Shutdown` is not idempotent.  On a broker with one
subscription, the first `Shutdown` closes the registered channel cleanly,
but a second `Shutdown` walks the same registry and calls `close` on the
already-closed channel — in Go a `close of closed channel` runtime panic —
so the second call faults instead of reproducing the terminal state. -/
theorem shutdown_twice_double_close_fault :
    (Broker.Shutdown (Broker.Subscribe NewBroker "a").1).doubleClose = false ∧
    (Broker.Shutdown (Broker.Shutdown (Broker.Subscribe NewBroker "a").1)).doubleClose = true ∧
    Broker.Shutdown (Broker.Shutdown (Broker.Subscribe NewBroker "a").1) ≠
      Broker.Shutdown (Broker.Subscribe NewBroker "a").1 := by
  decide

/-- C1 (code bug): under the `go 1.20` loop-variable capture in `Publish`,
fan-out is not exactly-once per matching queue.  With two subscriptions to
type `"a"` (queues 0 and 1, registered in that order) and one published
`"a"`-event, the realisable schedule in which both delivery goroutines run
after the spawn loop has finished makes both read the final value of the
shared loop variable: queue 1 receives two copies and queue 0 receives none,
contradicting the claim (and the repository's own `TestMultipleSubscribers`).
-/
theorem publish_two_subscribers_loop_capture_fault :
    schedOK 2 (fun _ => 1) = true ∧
    getQueue (flushAll (Broker.Publish
        (Broker.Subscribe (Broker.Subscribe NewBroker "a").1 "a").1
        { id := "e1", etype := "a", source := "test", data := "d" }
        (fun _ => 1) readAtSpawn)).queues 0 =
      some { buf := [], cap := 10, closed := false } ∧
    getQueue (flushAll (Broker.Publish
        (Broker.Subscribe (Broker.Subscribe NewBroker "a").1 "a").1
        { id := "e1", etype := "a", source := "test", data := "d" }
        (fun _ => 1) readAtSpawn)).queues 1 =
      some { buf := [{ id := "e1", etype := "a", source := "test", data := "d" },
                     { id := "e1", etype := "a", source := "test", data := "d" }],
             cap := 10, closed := false } := by
  refine ⟨rfl, rfl, rfl⟩

/-- C3 (counterexample): delivery order does not follow publish order even
for non-overlapping `Publish` calls.  A single subscriber to `"a"` receives
two sequentially published events in inverted order on the valid trace in
which the second call's delivery goroutine performs its channel send before
the first call's does (`deliverStep 1` before `deliverStep 0`). -/
theorem publish_order_inverted_counterexample :
    ValidTrace NewBroker
      [MStep.subBody "a",
       MStep.pubBody { id := "e1", etype := "a", source := "test", data := "1" }
         readAtSpawn readAtSpawn,
       MStep.pubBody { id := "e2", etype := "a", source := "test", data := "2" }
         readAtSpawn readAtSpawn,
       MStep.deliverStep 1, MStep.deliverStep 0] = true ∧
    getQueue (runTrace NewBroker
      [MStep.subBody "a",
       MStep.pubBody { id := "e1", etype := "a", source := "test", data := "1" }
         readAtSpawn readAtSpawn,
       MStep.pubBody { id := "e2", etype := "a", source := "test", data := "2" }
         readAtSpawn readAtSpawn,
       MStep.deliverStep 1, MStep.deliverStep 0]).queues 0 =
      some { buf := [{ id := "e2", etype := "a", source := "test", data := "2" },
                     { id := "e1", etype := "a", source := "test", data := "1" }],
             cap := 10, closed := false } ∧
    ([{ id := "e2", etype := "a", source := "test", data := "2" },
      { id := "e1", etype := "a", source := "test", data := "1" }] : List Event) ≠
      [{ id := "e1", etype := "a", source := "test", data := "1" },
       { id := "e2", etype := "a", source := "test", data := "2" }] := by
  refine ⟨rfl, rfl, by decide⟩

/-- C6 (code bug): a delivery goroutine can send on a closed channel.  The
`shuttingDown` check of `Publish` runs before the read lock is taken, so on
the valid trace where the check passes, then `Shutdown` stores the flag,
observes a zero wait-group counter and closes the registered channel, the
publish body still spawns its delivery task afterwards and the send hits the
closed channel — in Go a `send on closed channel` runtime panic. -/
theorem publish_shutdown_race_send_on_closed :
    ValidTrace NewBroker
      [MStep.subBody "a", MStep.sdFlag, MStep.sdClose,
       MStep.pubBody { id := "e1", etype := "a", source := "test", data := "d" }
         readAtSpawn readAtSpawn,
       MStep.deliverStep 0] = true ∧
    (runTrace NewBroker
      [MStep.subBody "a", MStep.sdFlag, MStep.sdClose,
       MStep.pubBody { id := "e1", etype := "a", source := "test", data := "d" }
         readAtSpawn readAtSpawn,
       MStep.deliverStep 0]).sendOnClosed = true := by
  refine ⟨rfl, rfl⟩

/-- C7 (code bug): a `Subscribe` call can register a fresh open queue after
the shutting-down flag is set, because its flag check runs before the
registration lock is taken.  On the valid trace where the check passes, then
`Shutdown` stores the flag and completes its closing phase, the registration
body still runs: the final state is shutting down yet holds a newly
registered open queue under `"a"` — a subscription raced into the drained
registry, and its queue is never closed. -/
theorem subscribe_shutdown_race_registers_after_flag :
    ValidTrace NewBroker [MStep.sdFlag, MStep.sdClose, MStep.subBody "a"] = true ∧
    (runTrace NewBroker [MStep.sdFlag, MStep.sdClose, MStep.subBody "a"]).shuttingDown = true ∧
    lookupSubs (runTrace NewBroker
      [MStep.sdFlag, MStep.sdClose, MStep.subBody "a"]).subscribers "a" = [0] ∧
    getQueue (runTrace NewBroker
      [MStep.sdFlag, MStep.sdClose, MStep.subBody "a"]).queues 0 =
      some { buf := [], cap := 10, closed := false } := by
  refine ⟨rfl, rfl, rfl, rfl⟩

/-- C9 (counterexample): with two wildcard subscriptions (queues 0 and 1)
and one published event whose type string is literally `"*"`, the realisable
`go 1.20` schedule in which both wildcard-loop goroutines run after the loop
has finished delivers two copies to queue 1 and none to queue 0, refuting
the claimed exactly-once delivery to each wildcard subscriber. -/
theorem wildcard_double_delivery_counterexample :
    schedOK 2 (fun _ => 1) = true ∧
    getQueue (flushAll (Broker.Publish
        (Broker.Subscribe (Broker.Subscribe NewBroker "*").1 "*").1
        { id := "e1", etype := "*", source := "test", data := "d" }
        readAtSpawn (fun _ => 1))).queues 0 =
      some { buf := [], cap := 10, closed := false } ∧
    getQueue (flushAll (Broker.Publish
        (Broker.Subscribe (Broker.Subscribe NewBroker "*").1 "*").1
        { id := "e1", etype := "*", source := "test", data := "d" }
        readAtSpawn (fun _ => 1))).queues 1 =
      some { buf := [{ id := "e1", etype := "*", source := "test", data := "d" },
                     { id := "e1", etype := "*", source := "test", data := "d" }],
             cap := 10, closed := false } := by
  refine ⟨rfl, rfl, rfl⟩

theorem closeList_subscribers (l : List QueueId) (s : Broker) :
    (closeList s l).subscribers = s.subscribers := by
  induction l generalizing s with
  | nil => rfl
  | cons q rest ih =>
    simp only [closeList, List.foldl_cons] at *
    cases h : getQueue s.queues q with
    | none => simp [h, ih]
    | some qu => by_cases hc : qu.closed <;> simp [h, hc, ih]

theorem closeList_allSubscribers (l : List QueueId) (s : Broker) :
    (closeList s l).allSubscribers = s.allSubscribers := by
  induction l generalizing s with
  | nil => rfl
  | cons q rest ih =>
    simp only [closeList, List.foldl_cons] at *
    cases h : getQueue s.queues q with
    | none => simp [h, ih]
    | some qu => by_cases hc : qu.closed <;> simp [h, hc, ih]

theorem closeList_shuttingDown (l : List QueueId) (s : Broker) :
    (closeList s l).shuttingDown = s.shuttingDown := by
  induction l generalizing s with
  | nil => rfl
  | cons q rest ih =>
    simp only [closeList, List.foldl_cons] at *
    cases h : getQueue s.queues q with
    | none => simp [h, ih]
    | some qu => by_cases hc : qu.closed <;> simp [h, hc, ih]

theorem closeList_pending (l : List QueueId) (s : Broker) :
    (closeList s l).pending = s.pending := by
  induction l generalizing s with
  | nil => rfl
  | cons q rest ih =>
    simp only [closeList, List.foldl_cons] at *
    cases h : getQueue s.queues q with
    | none => simp [h, ih]
    | some qu => by_cases hc : qu.closed <;> simp [h, hc, ih]

theorem closeList_nextId (l : List QueueId) (s : Broker) :
    (closeList s l).nextId = s.nextId := by
  induction l generalizing s with
  | nil => rfl
  | cons q rest ih =>
    simp only [closeList, List.foldl_cons] at *
    cases h : getQueue s.queues q with
    | none => simp [h, ih]
    | some qu => by_cases hc : qu.closed <;> simp [h, hc, ih]

theorem shutdown_shuttingDown (s : Broker) :
    (Broker.Shutdown s).shuttingDown = true := by
  simp [Broker.Shutdown, Broker.closeAllQueues, closeList_shuttingDown]

theorem shutdown_subscribers (s : Broker) :
    (Broker.Shutdown s).subscribers = s.subscribers := by
  simp [Broker.Shutdown, Broker.closeAllQueues, closeList_subscribers]

theorem shutdown_allSubscribers (s : Broker) :
    (Broker.Shutdown s).allSubscribers = s.allSubscribers := by
  simp [Broker.Shutdown, Broker.closeAllQueues, closeList_allSubscribers]

theorem shutdown_pending (s : Broker) :
    (Broker.Shutdown s).pending = s.pending := by
  simp [Broker.Shutdown, Broker.closeAllQueues, closeList_pending]

/-- C4: after `Shutdown` has completed, `Publish` is a silent no-op: the
flag check at the top of `Publish` observes the stored shutting-down flag
and returns, so the broker state is unchanged, no delivery task is spawned
for any subscriber (old or new), and under any read schedule nothing is
delivered, without a panic or an error. -/
theorem publish_after_shutdown_noop (s : Broker) (e : Event) (readT readW : Nat → Nat) :
    Broker.Publish (Broker.Shutdown s) e readT readW = Broker.Shutdown s := by
  simp [Broker.Publish, shutdown_shuttingDown]

/-- C5: after `Shutdown` has completed, `Subscribe` (for any event type,
wildcard included) returns a channel that is already closed and empty —
a receive reports end-of-stream immediately instead of blocking — and
registers nothing: both the type-keyed registry and the wildcard list are
exactly those of the shut-down broker. -/
theorem subscribe_after_shutdown_closed (s : Broker) (t : String) :
    getQueue (Broker.Subscribe (Broker.Shutdown s) t).1.queues
        (Broker.Subscribe (Broker.Shutdown s) t).2 =
      some { buf := [], cap := 0, closed := true } ∧
    (Broker.Subscribe (Broker.Shutdown s) t).1.subscribers =
      (Broker.Shutdown s).subscribers ∧
    (Broker.Subscribe (Broker.Shutdown s) t).1.allSubscribers =
      (Broker.Shutdown s).allSubscribers := by
  refine ⟨?_, ?_, ?_⟩ <;>
    simp [Broker.Subscribe, shutdown_shuttingDown, Broker.subscribeClosed, getQueue]

/-- C10: the handler returned by `CloudEventForwarder send` forwards each
event to `send` with a background context and the event unchanged, and does
nothing else: instantiated with a call-logging sender (the shape of
`mockSender` in `ceforwarder_test.go`), applying the handler to `e` produces
exactly the one-element call log `[(background, e)]`. -/
theorem cloudEventForwarder_invokes_sender_once :
    (∀ {α : Type} (send : Ctx → Event → α) (e : Event),
        CloudEventForwarder send e = send Ctx.background e) ∧
    (∀ e : Event, CloudEventForwarder (fun c ev => [(c, ev)]) e = [(Ctx.background, e)]) :=
  ⟨fun _ _ => rfl, fun _ => rfl⟩

theorem getQueue_setQueue_self (l : List (QueueId × Queue)) (q : QueueId) (v : Queue)
    (qu : Queue) (h : getQueue l q = some qu) :
    getQueue (setQueue l q v) q = some v := by
  induction l with
  | nil => simp [getQueue] at h
  | cons p rest ih =>
    by_cases hk : p.1 = q
    · simp [getQueue, setQueue, hk]
    · simp only [getQueue, setQueue, hk, if_false] at *
      exact ih h

theorem getQueue_setQueue_ne (l : List (QueueId × Queue)) (q q2 : QueueId) (v : Queue)
    (h : q2 ≠ q) : getQueue (setQueue l q v) q2 = getQueue l q2 := by
  induction l with
  | nil => rfl
  | cons p rest ih =>
    by_cases hk : p.1 = q
    · simp [getQueue, setQueue, hk, Ne.symm h, h]
    · simp only [getQueue, setQueue, hk, if_false]
      by_cases hk2 : p.1 = q2 <;> simp [hk2, ih]

theorem spawnFrom_readAtSpawn (e : Event) (rest pre : List QueueId) :
    spawnFrom (pre ++ rest) e readAtSpawn rest pre.length =
      rest.map (fun q => (q, e)) := by
  induction rest generalizing pre with
  | nil => rfl
  | cons q rest2 ih =>
    have hq : (pre ++ q :: rest2).getD pre.length 0 = q := by
      rw [List.getD_append_right _ _ _ _ (Nat.le_refl _)]
      simp
    have hrec := ih (pre ++ [q])
    simp only [List.append_assoc, List.singleton_append, List.length_append,
      List.length_singleton] at hrec
    simp only [spawnFrom, readAtSpawn, hq, List.map_cons]
    exact congrArg _ hrec

/-- Per-iteration capture spawns exactly one delivery task per target, in
target order. -/
theorem spawnTasks_readAtSpawn (targets : List QueueId) (e : Event) :
    spawnTasks targets readAtSpawn e = targets.map (fun q => (q, e)) := by
  have h := spawnFrom_readAtSpawn e targets []
  simpa [spawnTasks] using h

theorem deliveredTo_append (a b : List (QueueId × Event)) (q : QueueId) :
    deliveredTo (a ++ b) q = deliveredTo a q ++ deliveredTo b q := by
  induction a with
  | nil => rfl
  | cons p rest ih =>
    by_cases hk : p.1 = q <;> simp [deliveredTo, hk, ih]

theorem deliveredTo_map_nodup (ts : List QueueId) (e : Event) (q : QueueId)
    (h : ts.Nodup) :
    deliveredTo (ts.map fun t => (t, e)) q = if q ∈ ts then [e] else [] := by
  induction ts with
  | nil => rfl
  | cons t rest ih =>
    rcases List.nodup_cons.mp h with ⟨hnot, hrest⟩
    by_cases hk : t = q
    · subst hk
      simp [deliveredTo, ih hrest, hnot]
    · simp only [List.map_cons, deliveredTo, hk, if_false, ih hrest, List.mem_cons]
      by_cases hm : q ∈ rest <;> simp [hm, Ne.symm hk]


/-- Completing every pending delivery task, oldest first, empties the task
list and appends to each queue exactly the events of its tasks in task
order, provided every task targets a registered open queue with enough
buffer space; no other component of the state changes. -/
theorem flushN_spec (n : Nat) : ∀ (s : Broker),
    s.pending.length = n →
    (∀ p ∈ s.pending, ∃ qu, getQueue s.queues p.1 = some qu ∧ qu.closed = false ∧
        qu.buf.length + (deliveredTo s.pending p.1).length ≤ qu.cap) →
    (flushN n s).pending = [] ∧
    (flushN n s).subscribers = s.subscribers ∧
    (flushN n s).allSubscribers = s.allSubscribers ∧
    (flushN n s).shuttingDown = s.shuttingDown ∧
    (flushN n s).nextId = s.nextId ∧
    (flushN n s).doubleClose = s.doubleClose ∧
    (flushN n s).sendOnClosed = s.sendOnClosed ∧
    ∀ q, getQueue (flushN n s).queues q =
      (getQueue s.queues q).map
        (fun qu => { qu with buf := qu.buf ++ deliveredTo s.pending q }) := by
  induction n with
  | zero =>
    intro s hlen _
    have hnil : s.pending = [] := List.length_eq_zero.mp hlen
    refine ⟨hnil, rfl, rfl, rfl, rfl, rfl, rfl, ?_⟩
    intro q
    simp [flushN, hnil, deliveredTo]
  | succ n ih =>
    intro s hlen hwf
    cases hp : s.pending with
    | nil => rw [hp] at hlen; simp at hlen
    | cons p0 rest =>
      obtain ⟨q0, e0⟩ := p0
      obtain ⟨qu0, hget0, hclosed0, hcap0⟩ :=
        hwf (q0, e0) (by rw [hp]; exact List.mem_cons_self _ _)
      have hget0' : getQueue s.queues q0 = some qu0 := hget0
      have hd0 : deliveredTo s.pending q0 = e0 :: deliveredTo rest q0 := by
        rw [hp]; simp [deliveredTo]
      have hcap0' : qu0.buf.length + (deliveredTo s.pending q0).length ≤ qu0.cap := hcap0
      have hlt : qu0.buf.length < qu0.cap := by
        rw [hd0] at hcap0'
        simp only [List.length_cons] at hcap0'
        omega
      have hdel : Broker.deliver s 0 =
          { s with queues := setQueue s.queues q0 { qu0 with buf := qu0.buf ++ [e0] },
                   pending := rest } := by
        simp [Broker.deliver, hp, hget0', hclosed0, hlt]
      have hrestlen : rest.length = n := by
        rw [hp] at hlen; simpa using hlen
      have hrestwf : ∀ p ∈ rest,
          ∃ qu, getQueue (setQueue s.queues q0 { qu0 with buf := qu0.buf ++ [e0] }) p.1 =
              some qu ∧ qu.closed = false ∧
            qu.buf.length + (deliveredTo rest p.1).length ≤ qu.cap := by
        intro p hm
        by_cases hq : p.1 = q0
        · have hgq : getQueue (setQueue s.queues q0 { qu0 with buf := qu0.buf ++ [e0] }) p.1 =
              some { qu0 with buf := qu0.buf ++ [e0] } := by
            rw [hq]; exact getQueue_setQueue_self _ _ _ _ hget0'
          refine ⟨_, hgq, hclosed0, ?_⟩
          show (qu0.buf ++ [e0]).length + (deliveredTo rest p.1).length ≤ qu0.cap
          have hc := hcap0'
          rw [hd0] at hc
          rw [hq]
          simp only [List.length_append, List.length_singleton, List.length_cons,
            List.length_nil] at hc ⊢
          omega
        · obtain ⟨qu, hget, hclosed, hcap⟩ :=
            hwf p (by rw [hp]; exact List.mem_cons_of_mem _ hm)
          refine ⟨qu, by rw [getQueue_setQueue_ne _ _ _ _ hq]; exact hget, hclosed, ?_⟩
          have hnd : deliveredTo s.pending p.1 = deliveredTo rest p.1 := by
            have hne : q0 ≠ p.1 := fun h => hq h.symm
            rw [hp]; simp [deliveredTo, hne]
          rw [hnd] at hcap
          exact hcap
      have hstep : flushN (n + 1) s =
          flushN n { s with queues := setQueue s.queues q0 { qu0 with buf := qu0.buf ++ [e0] },
                            pending := rest } := by
        rw [show flushN (n + 1) s = flushN n (Broker.deliver s 0) from rfl, hdel]
      obtain ⟨ihp, ihs, iha, ihd, ihn, ihdc, ihsc, ihq⟩ :=
        ih { s with queues := setQueue s.queues q0 { qu0 with buf := qu0.buf ++ [e0] },
                    pending := rest } hrestlen hrestwf
      rw [hstep]
      refine ⟨ihp, ihs, iha, ihd, ihn, ihdc, ihsc, ?_⟩
      intro q
      rw [ihq q]
      dsimp only
      by_cases hq : q = q0
      · subst hq
        rw [getQueue_setQueue_self _ _ _ _ hget0', hget0']
        simp [deliveredTo]
      · have hne : q0 ≠ q := fun h => hq h.symm
        rw [getQueue_setQueue_ne _ _ _ _ hq]
        simp [deliveredTo, hne]

/-- One `Publish` call on a quiescent broker, of an event whose matching
queues (exact-type plus wildcard, under per-iteration capture) are distinct,
registered, open and have buffer space, followed by the completion of every
spawned delivery task: each matching queue receives exactly one copy of the
event appended to its buffer, every other queue is untouched, and no other
component of the state changes. -/
theorem pubFlush_spec (s : Broker) (e : Event)
    (hflag : s.shuttingDown = false)
    (hpend : s.pending = [])
    (hnodup : (lookupSubs s.subscribers e.etype ++ s.allSubscribers).Nodup)
    (hreg : ∀ q ∈ lookupSubs s.subscribers e.etype ++ s.allSubscribers,
        ∃ qu, getQueue s.queues q = some qu ∧ qu.closed = false ∧ qu.buf.length < qu.cap) :
    (pubFlush s e).pending = [] ∧
    (pubFlush s e).subscribers = s.subscribers ∧
    (pubFlush s e).allSubscribers = s.allSubscribers ∧
    (pubFlush s e).shuttingDown = s.shuttingDown ∧
    (pubFlush s e).nextId = s.nextId ∧
    (pubFlush s e).doubleClose = s.doubleClose ∧
    (pubFlush s e).sendOnClosed = s.sendOnClosed ∧
    ∀ q, getQueue (pubFlush s e).queues q =
      (getQueue s.queues q).map (fun qu => { qu with
        buf := qu.buf ++
          (if q ∈ lookupSubs s.subscribers e.etype ++ s.allSubscribers then [e] else []) }) := by
  have hpub : Broker.Publish s e readAtSpawn readAtSpawn =
      { s with pending :=
          (lookupSubs s.subscribers e.etype ++ s.allSubscribers).map (fun q => (q, e)) } := by
    simp [Broker.Publish, hflag, Broker.publishBody, hpend, spawnTasks_readAtSpawn,
      List.map_append]
  have hflush : pubFlush s e =
      flushN ((lookupSubs s.subscribers e.etype ++ s.allSubscribers).map
          (fun q => (q, e))).length
        { s with pending :=
            (lookupSubs s.subscribers e.etype ++ s.allSubscribers).map (fun q => (q, e)) } := by
    rw [pubFlush, hpub]; rfl
  have hwf : ∀ p ∈ (lookupSubs s.subscribers e.etype ++ s.allSubscribers).map
      (fun q => (q, e)),
      ∃ qu, getQueue s.queues p.1 = some qu ∧ qu.closed = false ∧
        qu.buf.length +
          (deliveredTo ((lookupSubs s.subscribers e.etype ++ s.allSubscribers).map
              (fun q => (q, e))) p.1).length ≤ qu.cap := by
    intro p hm
    obtain ⟨q, hqm, rfl⟩ := List.mem_map.mp hm
    obtain ⟨qu, hget, hcl, hlt⟩ := hreg q hqm
    refine ⟨qu, hget, hcl, ?_⟩
    rw [deliveredTo_map_nodup _ _ _ hnodup]
    simp [hqm]
    omega
  obtain ⟨hfp, hfs, hfa, hfd, hfn, hfdc, hfsc, hfq⟩ :=
    flushN_spec _
      { s with pending :=
          (lookupSubs s.subscribers e.etype ++ s.allSubscribers).map (fun q => (q, e)) }
      rfl hwf
  rw [hflush]
  refine ⟨hfp, hfs, hfa, hfd, hfn, hfdc, hfsc, ?_⟩
  intro q
  rw [hfq q]
  dsimp only
  rw [deliveredTo_map_nodup _ _ _ hnodup]

/-- A sequence of non-overlapping `Publish` calls towards a broker whose
only subscriber is the single queue `q` registered under type `t`, each
call's delivery task completing before the next call begins: the events
arrive in `q`'s buffer exactly in publish order, and the registry, the
lifecycle flag and the pending-task list are unchanged. -/
theorem pubSeq_fifo (es : List Event) : ∀ (s : Broker) (t : String) (q : QueueId) (qu : Queue),
    s.shuttingDown = false → s.pending = [] →
    lookupSubs s.subscribers t = [q] → s.allSubscribers = [] →
    getQueue s.queues q = some qu → qu.closed = false →
    (∀ e ∈ es, e.etype = t) → qu.buf.length + es.length ≤ qu.cap →
    (pubSeq s es).pending = [] ∧
    (pubSeq s es).subscribers = s.subscribers ∧
    (pubSeq s es).allSubscribers = s.allSubscribers ∧
    (pubSeq s es).shuttingDown = s.shuttingDown ∧
    getQueue (pubSeq s es).queues q = some { qu with buf := qu.buf ++ es } := by
  induction es with
  | nil =>
    intro s t q qu hflag hpend hlook hall hget hcl _ _
    refine ⟨hpend, rfl, rfl, rfl, ?_⟩
    simpa using hget
  | cons e es2 ih =>
    intro s t q qu hflag hpend hlook hall hget hcl htype hcap
    have hetype : e.etype = t := htype e (List.mem_cons_self _ _)
    have hmatch : lookupSubs s.subscribers e.etype ++ s.allSubscribers = [q] := by
      rw [hetype, hlook, hall, List.append_nil]
    obtain ⟨hfp, hfs, hfa, hfd, _, _, _, hfq⟩ :=
      pubFlush_spec s e hflag hpend (by rw [hmatch]; simp)
        (by
          rw [hmatch]
          intro q2 hq2
          rw [List.mem_singleton] at hq2
          subst hq2
          refine ⟨qu, hget, hcl, ?_⟩
          simp only [List.length_cons] at hcap
          omega)
    have hget1 : getQueue (pubFlush s e).queues q = some { qu with buf := qu.buf ++ [e] } := by
      rw [hfq q, hget, hmatch]
      simp
    have hstep : pubSeq s (e :: es2) = pubSeq (pubFlush s e) es2 := rfl
    obtain ⟨ihp, ihs, iha, ihd, ihq⟩ :=
      ih (pubFlush s e) t q { qu with buf := qu.buf ++ [e] }
        (by rw [hfd, hflag]) hfp (by rw [hfs, hlook]) (by rw [hfa, hall]) hget1 hcl
        (fun e2 h2 => htype e2 (List.mem_cons_of_mem _ h2))
        (by
          show (qu.buf ++ [e]).length + es2.length ≤ qu.cap
          simp only [List.length_append, List.length_singleton, List.length_cons,
            List.length_nil] at hcap ⊢
          omega)
    rw [hstep]
    refine ⟨ihp, by rw [ihs, hfs], by rw [iha, hfa], by rw [ihd, hfd], ?_⟩
    rw [ihq]
    simp

theorem consumeList_eq_map {α : Type} (f : Event → α) (es : List Event) :
    consumeList f es = es.map f := by
  induction es with
  | nil => rfl
  | cons e rest ih => simp [consumeList, ih]

theorem lookupSubs_addTyped (m : List (String × List QueueId)) (t t2 : String) (q : QueueId) :
    lookupSubs (addTyped m t q) t2 =
      if t2 = t then lookupSubs m t2 ++ [q] else lookupSubs m t2 := by
  induction m with
  | nil =>
    by_cases h : t2 = t
    · subst h; simp [addTyped, lookupSubs]
    · have h2 : ¬t = t2 := fun hh => h hh.symm
      simp [addTyped, lookupSubs, h, h2]
  | cons p rest ih =>
    obtain ⟨k, qs⟩ := p
    by_cases hk : k = t
    · subst hk
      by_cases h : t2 = k
      · subst h; simp [addTyped, lookupSubs]
      · have h2 : ¬k = t2 := fun hh => h hh.symm
        simp [addTyped, lookupSubs, h, h2]
    · by_cases h2 : k = t2
      · subst h2
        simp [addTyped, lookupSubs, hk]
      · simp [addTyped, lookupSubs, hk, h2, ih]

theorem publish_subscribers (s : Broker) (e : Event) (readT readW : Nat → Nat) :
    (Broker.Publish s e readT readW).subscribers = s.subscribers := by
  by_cases hf : s.shuttingDown <;> simp [Broker.Publish, hf, Broker.publishBody]

theorem deliver_subscribers (s : Broker) (i : Nat) :
    (Broker.deliver s i).subscribers = s.subscribers := by
  unfold Broker.deliver
  repeat' split
  all_goals rfl

/-- No reachable broker state registers a queue under the literal key `"*"`
in the type-keyed registry: the empty broker has no such entry, `Subscribe`
diverts `"*"` to the wildcard list and any other key leaves `"*"` absent,
and `Publish`, delivery completions and `Shutdown` never modify the
type-keyed registry. -/
theorem noStarKey_invariant :
    lookupSubs NewBroker.subscribers "*" = [] ∧
    (∀ (s : Broker) (t : String), lookupSubs s.subscribers "*" = [] →
        lookupSubs (Broker.Subscribe s t).1.subscribers "*" = []) ∧
    (∀ (s : Broker) (e : Event) (readT readW : Nat → Nat),
        (Broker.Publish s e readT readW).subscribers = s.subscribers) ∧
    (∀ (s : Broker) (i : Nat), (Broker.deliver s i).subscribers = s.subscribers) ∧
    (∀ s : Broker, (Broker.Shutdown s).subscribers = s.subscribers) := by
  refine ⟨rfl, ?_, publish_subscribers, deliver_subscribers, shutdown_subscribers⟩
  intro s t h
  by_cases hf : s.shuttingDown
  · simp [Broker.Subscribe, hf, Broker.subscribeClosed, h]
  · by_cases ht : t = "*"
    · simp [Broker.Subscribe, hf, Broker.subscribeBody, ht, h]
    · have ht2 : ¬("*" : String) = t := fun hh => ht hh.symm
      simp [Broker.Subscribe, hf, Broker.subscribeBody, ht, lookupSubs_addTyped, ht2, h]

theorem closeAllQueues_single (s2 : Broker) (t : String) (q : QueueId) (qu : Queue)
    (hsub : s2.subscribers = [(t, [q])]) (hall : s2.allSubscribers = [])
    (hget : getQueue s2.queues q = some qu) (hcl : qu.closed = false) :
    getQueue (Broker.closeAllQueues s2).queues q = some { qu with closed := true } := by
  rw [Broker.closeAllQueues, hsub, hall]
  have htyp : typedQueueIds [(t, [q])] = [q] := by simp [typedQueueIds]
  rw [htyp]
  have hstep : closeList s2 [q] =
      { s2 with queues := setQueue s2.queues q { qu with closed := true } } := by
    simp [closeList, hget, hcl]
  have hnil : closeList (closeList s2 [q]) [] = closeList s2 [q] := rfl
  rw [hnil, hstep]
  exact getQueue_setQueue_self _ _ _ _ hget

theorem shutdown_closes_single (s : Broker) (t : String) (q : QueueId) (qu : Queue)
    (hsub : s.subscribers = [(t, [q])]) (hall : s.allSubscribers = [])
    (hget : getQueue s.queues q = some qu) (hcl : qu.closed = false) :
    getQueue (Broker.Shutdown s).queues q = some { qu with closed := true } :=
  closeAllQueues_single { s with shuttingDown := true } t q qu hsub hall hget hcl

/-- C3 (amended): for a broker whose only subscriber is the single queue `q`
registered under type `t`, a sequence of non-overlapping `Publish` calls of
`t`-events is delivered to `q` in publish order, provided each call's
delivery task completes before the next call begins (the channel itself is
FIFO, but delivery tasks of distinct `Publish` calls that are pending
simultaneously may complete in either order, so without that proviso arrival
order can differ from publish order even for non-overlapping calls). -/
theorem publish_order_preserved_when_flushed (s : Broker) (t : String) (q : QueueId)
    (qu : Queue) (es : List Event)
    (hflag : s.shuttingDown = false) (hpend : s.pending = [])
    (hlook : lookupSubs s.subscribers t = [q]) (hall : s.allSubscribers = [])
    (hget : getQueue s.queues q = some qu) (hcl : qu.closed = false)
    (htype : ∀ e ∈ es, e.etype = t) (hcap : qu.buf.length + es.length ≤ qu.cap) :
    getQueue (pubSeq s es).queues q = some { qu with buf := qu.buf ++ es } :=
  (pubSeq_fifo es s t q qu hflag hpend hlook hall hget hcl htype hcap).2.2.2.2

/-- Witness for the amended C3 theorem: a single subscriber to `"a"` on a
fresh broker receives two sequentially published and flushed `"a"`-events
in publish order. -/
theorem publish_order_preserved_when_flushed_witness :
    lookupSubs (Broker.Subscribe NewBroker "a").1.subscribers "a" = [0] ∧
    getQueue (pubSeq (Broker.Subscribe NewBroker "a").1
        [{ id := "e1", etype := "a", source := "t", data := "1" },
         { id := "e2", etype := "a", source := "t", data := "2" }]).queues 0 =
      some { buf := [{ id := "e1", etype := "a", source := "t", data := "1" },
                     { id := "e2", etype := "a", source := "t", data := "2" }],
             cap := 10, closed := false } :=
  ⟨by decide,
   publish_order_preserved_when_flushed (Broker.Subscribe NewBroker "a").1 "a" 0
     { buf := [], cap := 10, closed := false }
     [{ id := "e1", etype := "a", source := "t", data := "1" },
      { id := "e2", etype := "a", source := "t", data := "2" }]
     rfl rfl (by decide) rfl rfl rfl (by decide) (by decide)⟩

/-- C9 (amended): `Subscribe("*")` registers the fresh queue only in the
wildcard list and leaves the type-keyed registry untouched, so no queue is
ever registered for the literal exact type `"*"` (see
`noStarKey_invariant`); consequently, publishing an event whose type string
is literally `"*"` on a quiescent broker whose registry has no `"*"` key
spawns deliveries only from the wildcard loop, and — under per-iteration
capture of the loop variable, the only realisable schedule when at most one
wildcard subscriber exists — each wildcard queue receives exactly one copy
and no other queue receives any. -/
theorem star_subscription_wildcard_only :
    (∀ s : Broker, s.shuttingDown = false →
        (Broker.Subscribe s "*").1.subscribers = s.subscribers ∧
        (Broker.Subscribe s "*").1.allSubscribers = s.allSubscribers ++ [s.nextId]) ∧
    (∀ (s : Broker) (e : Event),
        e.etype = "*" → lookupSubs s.subscribers "*" = [] →
        s.shuttingDown = false → s.pending = [] → s.allSubscribers.Nodup →
        (∀ q ∈ s.allSubscribers, ∃ qu, getQueue s.queues q = some qu ∧
            qu.closed = false ∧ qu.buf.length < qu.cap) →
        ∀ q qu, getQueue s.queues q = some qu →
          getQueue (pubFlush s e).queues q =
            some { qu with
              buf := qu.buf ++ (if q ∈ s.allSubscribers then [e] else []) }) := by
  constructor
  · intro s hf
    constructor <;> simp [Broker.Subscribe, hf, Broker.subscribeBody]
  · intro s e hetype hstar hflag hpend hnodup hreg q qu hget
    have hmatch : lookupSubs s.subscribers e.etype ++ s.allSubscribers =
        s.allSubscribers := by
      rw [hetype, hstar, List.nil_append]
    obtain ⟨_, _, _, _, _, _, _, hfq⟩ :=
      pubFlush_spec s e hflag hpend (by rw [hmatch]; exact hnodup)
        (by rw [hmatch]; exact hreg)
    rw [hfq q, hget, hmatch]
    rfl

/-- Witness for the amended C9 theorem: one wildcard subscriber (queue 0)
and one `"a"` subscriber (queue 1); publishing an event whose type string is
literally `"*"` delivers exactly one copy to the wildcard queue and none to
the typed queue. -/
theorem star_subscription_wildcard_only_witness :
    lookupSubs (Broker.Subscribe (Broker.Subscribe NewBroker "*").1 "a").1.subscribers "*"
      = [] ∧
    getQueue (pubFlush (Broker.Subscribe (Broker.Subscribe NewBroker "*").1 "a").1
        { id := "e1", etype := "*", source := "t", data := "d" }).queues 0 =
      some { buf := [{ id := "e1", etype := "*", source := "t", data := "d" }],
             cap := 10, closed := false } ∧
    getQueue (pubFlush (Broker.Subscribe (Broker.Subscribe NewBroker "*").1 "a").1
        { id := "e1", etype := "*", source := "t", data := "d" }).queues 1 =
      some { buf := [], cap := 10, closed := false } :=
  ⟨by decide,
   by
    have h := star_subscription_wildcard_only.2
      (Broker.Subscribe (Broker.Subscribe NewBroker "*").1 "a").1
      { id := "e1", etype := "*", source := "t", data := "d" }
      rfl (by decide) rfl rfl (by decide)
      (by
        intro q hq
        have hq1 : q ∈ [0] := hq
        have hq0 : q = 0 := by simpa using hq1
        subst hq0
        exact ⟨{ buf := [], cap := 10, closed := false }, rfl, rfl, by decide⟩)
      0 { buf := [], cap := 10, closed := false } rfl
    simpa using h,
   by
    have h := star_subscription_wildcard_only.2
      (Broker.Subscribe (Broker.Subscribe NewBroker "*").1 "a").1
      { id := "e1", etype := "*", source := "t", data := "d" }
      rfl (by decide) rfl rfl (by decide)
      (by
        intro q hq
        have hq1 : q ∈ [0] := hq
        have hq0 : q = 0 := by simpa using hq1
        subst hq0
        exact ⟨{ buf := [], cap := 10, closed := false }, rfl, rfl, by decide⟩)
      1 { buf := [], cap := 10, closed := false } rfl
    simpa using h⟩

/-- C8: `SubscribeFunc` registers its subscription exactly as `Subscribe`
does (its first statement is `ch := eb.Subscribe(eventType)`), and its
consumer loop invokes the callback exactly once per event received on that
subscription's queue, in queue order, exiting when the queue is closed and
never invoking the callback afterwards: on a fresh broker, subscribing to a
type `t`, publishing any sequence of `t`-events (each delivery completing,
at most the buffer capacity of 10), and shutting down leaves the queue
closed with exactly those events, and the consumer loop over that closed
queue returns exactly one callback result per event, in order. -/
theorem subscribeFunc_registers_and_invokes_once :
    (∀ {α : Type} (s : Broker) (t : String) (f : Event → α),
        Broker.SubscribeFunc s t f = Broker.Subscribe s t) ∧
    (∀ {α : Type} (t : String) (es : List Event) (f : Event → α),
        t ≠ "*" → (∀ e ∈ es, e.etype = t) → es.length ≤ 10 →
        getQueue (Broker.Shutdown (pubSeq (Broker.SubscribeFunc NewBroker t f).1 es)).queues
            (Broker.SubscribeFunc NewBroker t f).2 =
          some { buf := es, cap := 10, closed := true } ∧
        consumeLoop f { buf := es, cap := 10, closed := true } = some (es.map f)) := by
  constructor
  · intro α s t f
    rfl
  · intro α t es f ht htype hlen
    constructor
    · have hs1 : (Broker.SubscribeFunc NewBroker t f).1 =
          { subscribers := [(t, [0])], allSubscribers := [],
            queues := [(0, { buf := [], cap := 10, closed := false })], nextId := 1,
            pending := [], shuttingDown := false, doubleClose := false,
            sendOnClosed := false } := by
        simp [Broker.SubscribeFunc, Broker.Subscribe, NewBroker, Broker.subscribeBody, ht,
          addTyped]
      have hq1 : (Broker.SubscribeFunc NewBroker t f).2 = 0 := by
        simp [Broker.SubscribeFunc, Broker.Subscribe, NewBroker, Broker.subscribeBody, ht]
      rw [hs1, hq1]
      obtain ⟨hp2, hs2, ha2, hd2, hq2⟩ :=
        pubSeq_fifo es
          { subscribers := [(t, [0])], allSubscribers := [],
            queues := [(0, { buf := [], cap := 10, closed := false })], nextId := 1,
            pending := [], shuttingDown := false, doubleClose := false,
            sendOnClosed := false }
          t 0 { buf := [], cap := 10, closed := false }
          rfl rfl (by simp [lookupSubs]) rfl rfl rfl htype (by simpa using hlen)
      have hq3 : getQueue (pubSeq
          { subscribers := [(t, [0])], allSubscribers := [],
            queues := [(0, { buf := [], cap := 10, closed := false })], nextId := 1,
            pending := [], shuttingDown := false, doubleClose := false,
            sendOnClosed := false } es).queues 0 =
          some { buf := es, cap := 10, closed := false } := by
        simpa using hq2
      have hres := shutdown_closes_single _ t 0 { buf := es, cap := 10, closed := false }
        (by rw [hs2]) (by rw [ha2]) hq3 rfl
      exact hres
    · simp [consumeLoop, consumeList_eq_map]

/-- Witness for the C8 theorem: subscribing to `"a"`, publishing two
`"a"`-events and shutting down leaves the queue closed with both events, and
the consumer loop invokes the id-extracting callback once per event in
order. -/
theorem subscribeFunc_registers_and_invokes_once_witness :
    (("a" : String) ≠ "*") ∧
    getQueue (Broker.Shutdown (pubSeq
        (Broker.SubscribeFunc NewBroker "a" (fun e => e.id)).1
        [{ id := "e1", etype := "a", source := "t", data := "1" },
         { id := "e2", etype := "a", source := "t", data := "2" }])).queues
        (Broker.SubscribeFunc NewBroker "a" (fun e => e.id)).2 =
      some { buf := [{ id := "e1", etype := "a", source := "t", data := "1" },
                     { id := "e2", etype := "a", source := "t", data := "2" }],
             cap := 10, closed := true } ∧
    consumeLoop (fun e => e.id)
        { buf := [{ id := "e1", etype := "a", source := "t", data := "1" },
                  { id := "e2", etype := "a", source := "t", data := "2" }],
          cap := 10, closed := true } = some ["e1", "e2"] :=
  ⟨by decide,
   (subscribeFunc_registers_and_invokes_once.2 "a"
     [{ id := "e1", etype := "a", source := "t", data := "1" },
      { id := "e2", etype := "a", source := "t", data := "2" }]
     (fun e => e.id) (by decide) (by decide) (by decide)).1,
   by
    have h := (subscribeFunc_registers_and_invokes_once.2 "a"
      [{ id := "e1", etype := "a", source := "t", data := "1" },
       { id := "e2", etype := "a", source := "t", data := "2" }]
      (fun e => e.id) (by decide) (by decide) (by decide)).2
    simpa using h⟩
